import Mathlib

/-
Verification of the context/unified diff output formatter (context.c) of
GNU diffutils against its specification.  The data model (struct change,
enum changes) comes from diff.h; the algorithms come from context.c.
Collaborator routines that live outside the provided sources
(translate_range, analyze_hunk, print_1_line, print_script, the regex
matchers and the time formatter) are modelled from the specification, as
indicated in their doc comments.  Line numbers are internal origin-0
indices (possibly negative down to -prefix_lines) carried as Int; counts
are Nat.
-/

namespace Diffutils

/-- Kinds of changes a hunk contains, from enum changes in diff.h:
UNCHANGED, OLD (deletes only), NEW (inserts only), CHANGED (both). -/
inductive Changes
  | UNCHANGED
  | OLD
  | NEW
  | CHANGED
deriving DecidableEq

/-- Test whether a hunk kind includes deleted lines: the C bit test
changes & OLD (OLD = 1, CHANGED = 3). -/
def Changes.hasOld : Changes → Bool
  | Changes.OLD => true
  | Changes.CHANGED => true
  | _ => false

/-- Test whether a hunk kind includes inserted lines: the C bit test
changes & NEW (NEW = 2, CHANGED = 3). -/
def Changes.hasNew : Changes → Bool
  | Changes.NEW => true
  | Changes.CHANGED => true
  | _ => false

/-- One edit command of the edit script, from struct change in diff.h.
line0 and line1 are the first affected (internal, origin-0) lines in the
two files, deleted and inserted the corresponding counts, ignore the
mutable flag used by context.c.  The forward chain (the link field) is
represented by a List Change following the head change. -/
structure Change where
  line0 : Int
  line1 : Int
  deleted : Nat
  inserted : Nat
  ignore : Bool
deriving DecidableEq

/-- Modelled from the spec: translate_line_number maps an internal
origin-0 line number to the user-visible origin-1 real line number via
the file's prefix offset (spec section 3, Line-numbering conventions). -/
def translate_line_number (pl : Nat) (i : Int) : Int :=
  i + pl + 1

/-- Modelled from the spec: translate_range produces the origin-1 real
line numbers for an internal line pair, via the file's prefix offset.
The function itself lives in util.c, which is not among the provided
sources. -/
def translate_range (pl : Nat) (a b : Int) : Int × Int :=
  (translate_line_number pl a, translate_line_number pl b)

/-- Translation of print_context_number_range (context.c): print a pair
of translated line numbers with a comma; if the second is not greater,
print it alone. -/
def print_context_number_range (pl : Nat) (a b : Int) : String :=
  let t := translate_range pl a b
  if t.2 ≤ t.1 then toString t.2
  else toString t.1 ++ "," ++ toString t.2

/-- Translation of print_unidiff_number_range (context.c): print the
translated range in unified start,length form; a range of no lines
prints the line number before the range with length 0, and a
single-line range prints just its number. -/
def print_unidiff_number_range (pl : Nat) (a b : Int) : String :=
  let t := translate_range pl a b
  if t.2 ≤ t.1 then
    (if t.2 < t.1 then toString t.2 ++ ",0" else toString t.2)
  else toString t.1 ++ "," ++ toString (t.2 - t.1 + 1)

/-- Gap between two successive changes measured in file 0:
next.line0 - (prev.line0 + prev.deleted), the quantity
start->line0 - top0 of find_hunk. -/
def gap0 (prev next : Change) : Int :=
  next.line0 - (prev.line0 + prev.deleted)

/-- Gap between two successive changes measured in file 1:
next.line1 - (prev.line1 + prev.inserted), the quantity
start->line1 - top1 of find_hunk. -/
def gap1 (prev next : Change) : Int :=
  next.line1 - (prev.line1 + prev.inserted)

/-- The asserted consistency invariant of find_hunk: the gap between two
successive changes is the same measured in either file. -/
def gapsConsistent (prev next : Change) : Prop :=
  gap0 prev next = gap1 prev next

instance (prev next : Change) : Decidable (gapsConsistent prev next) :=
  inferInstanceAs (Decidable (gap0 prev next = gap1 prev next))

/-- Threshold distance used by find_hunk: CONTEXT if the second change is
ignorable, 2 * CONTEXT + 1 otherwise. -/
def hunkThreshold (ctx : Nat) (next : Change) : Int :=
  if next.ignore then (ctx : Int) else 2 * (ctx : Int) + 1

/-- Translation of find_hunk (context.c): scan a forward edit script for
the first place where at least the threshold number of unchanged lines
elapse before the next change, and return the last change before those
lines.  The chain is the head change plus the list of the following
changes.  The C code calls abort () when a consistency check on the two
gap measurements fails; the abort is modelled as the value none. -/
def find_hunk (ctx : Nat) : Change → List Change → Option Change
  | prev, [] => some prev
  | prev, next :: rest =>
    if gap0 prev next ≠ gap1 prev next then none
    else if gap0 prev next < hunkThreshold ctx next then find_hunk ctx next rest
    else some prev

/-- Last change of the maximal hunk run, written following the spec's
words (section 4.3): walk forward, including the successor change
exactly when the file-0 gap is strictly below the threshold, stopping at
the end of the chain. -/
def hunkRunLast (ctx : Nat) : Change → List Change → Change
  | prev, [] => prev
  | prev, next :: rest =>
    if gap0 prev next < hunkThreshold ctx next then hunkRunLast ctx next rest
    else prev

/-- Adjacent pairs of changes that find_hunk actually examines before it
stops: every pair up to and including the first one whose gap is
inconsistent or at least the threshold. -/
def examinedPairs (ctx : Nat) : Change → List Change → List (Change × Change)
  | _, [] => []
  | prev, next :: rest =>
    (prev, next) ::
      (if gap0 prev next = gap1 prev next ∧ gap0 prev next < hunkThreshold ctx next
       then examinedPairs ctx next rest
       else [])

/-- The C character classifier c_isspace over the POSIX locale: space,
tab, newline, vertical tab, form feed, carriage return. -/
def c_isspace (c : Char) : Bool :=
  c == ' ' || c == '\t' || c == '\n' || c == '\x0b' || c == '\x0c' || c == '\r'

/-- Environment handed to the formatter: the two read-only line-indexed
file views (lines include their terminating newline), the configuration
options of diff.h that context.c consults, and the two optional compiled
regex matchers, abstracted as total predicates as the spec treats them
(section 6): the ignore regex as a predicate on a line's bytes, the
function regex as a predicate on a file-0 line index. -/
structure Env where
  lines0 : Int → String
  lines1 : Int → String
  prefix_lines0 : Nat
  prefix_lines1 : Nat
  valid_lines0 : Int
  valid_lines1 : Int
  context : Nat
  ignore_blank_lines : Bool
  ignore_regexp : Option (String → Bool)
  function_regexp : Option (Int → Bool)
  initial_tab : Bool
  suppress_blank_empty : Bool
  expand_tabs : Bool
  tabsize : Nat

/-- Test whether a line's last byte is a newline. -/
def lineEndsNL (line : String) : Bool :=
  line.data.getLast? == some '\n'

/-- Test whether a line's first byte is a newline, the C dereference
**line == '\n' of context.c. -/
def lineStartsNL (line : String) : Bool :=
  line.data.head? == some '\n'

/-- Modelled from the spec: a line is blank when it consists solely of
whitespace terminated by a newline (spec section 4.2). -/
def blankLine (line : String) : Bool :=
  line.data.all c_isspace && lineEndsNL line

/-- Modelled from the spec: a line is ignorable iff it is blank and
ignore_blank_lines is on, or the ignore regex is present and matches the
line (spec section 4.2).  The predicate itself belongs to the engine's
line-equivalence classifier, which is not among the provided sources. -/
def ignorableLine (env : Env) (line : String) : Bool :=
  (env.ignore_blank_lines && blankLine line) ||
    (match env.ignore_regexp with
      | some m => m line
      | none => false)

/-- All lines of the half-open span starting at line number start with
the given length are ignorable. -/
def spanAllIgnorable (env : Env) (lineOf : Int → String) (start : Int) : Nat → Bool
  | 0 => true
  | n + 1 => ignorableLine env (lineOf start) && spanAllIgnorable env lineOf (start + 1) n

/-- Both the deleted span in file 0 and the inserted span in file 1 of a
change consist of ignorable lines only. -/
def changeAllIgnorable (env : Env) (c : Change) : Bool :=
  spanAllIgnorable env env.lines0 c.line0 c.deleted &&
    spanAllIgnorable env env.lines1 c.line1 c.inserted

/-- Result of analyzing a hunk: its kind and the internal line-number
extents it spans in the two files. -/
structure HunkAnalysis where
  kind : Changes
  first0 : Int
  last0 : Int
  first1 : Int
  last1 : Int
deriving DecidableEq

/-- Modelled from the spec: analyze_hunk (util.c, not among the provided
sources; spec section 4.1).  Given the first change of a contiguous run
(the run is the head change plus the list of following changes up to
the detached end), it returns first0 = start.line0, first1 = start.line1,
last0 = (last change).line0 + deleted - 1, last1 = (last change).line1 +
inserted - 1, and the kind: UNCHANGED when every change of the run has
ignore = true and all its file-0 and file-1 lines are ignorable
(suppress the hunk entirely), else OLD / NEW / CHANGED according to
whether deletions, insertions, or both are materially present. -/
def analyze_hunk (env : Env) (first : Change) (rest : List Change) : HunkAnalysis :=
  let run := first :: rest
  let lastc := run.getLast (List.cons_ne_nil first rest)
  let show_from := (run.map Change.deleted).sum
  let show_to := (run.map Change.inserted).sum
  let trivialFlag := run.all Change.ignore && run.all (changeAllIgnorable env)
  let kind :=
    if trivialFlag then Changes.UNCHANGED
    else if 0 < show_from && 0 < show_to then Changes.CHANGED
    else if 0 < show_from then Changes.OLD
    else if 0 < show_to then Changes.NEW
    else Changes.UNCHANGED
  { kind := kind,
    first0 := first.line0,
    last0 := lastc.line0 + lastc.deleted - 1,
    first1 := first.line1,
    last1 := lastc.line1 + lastc.inserted - 1 }

/-- Translation of mark_ignorable (context.c): set the ignore flag of
each change in the script, detaching the change from the chain (so the
analysis sees only that change) and reattaching before advancing; the
flag becomes true exactly when analyze_hunk on the lone change yields
UNCHANGED (the C test ! analyze_hunk (...)). -/
def mark_ignorable (env : Env) : List Change → List Change
  | [] => []
  | c :: rest =>
    { c with ignore := decide ((analyze_hunk env c []).kind = Changes.UNCHANGED) } ::
      mark_ignorable env rest

/-- Translation of the script-preparation phase at the top of
print_context_script (context.c): when ignore_blank_lines is on or the
ignore regex is present, run mark_ignorable; otherwise clear the ignore
flag of every change. -/
def print_context_script_mark (env : Env) (script : List Change) : List Change :=
  if env.ignore_blank_lines || env.ignore_regexp.isSome then mark_ignorable env script
  else script.map (fun e => { e with ignore := false })

/-- State of the function finder carried across hunks within one emit
pass: the module-scoped variables find_function_last_search and
find_function_last_match of context.c.  The LIN_MAX sentinel of
last_match (no previous match) is modelled as none. -/
structure FFState where
  last_search : Int
  last_match : Option Int
deriving DecidableEq

/-- Downward scan of find_function: the C loop while (last <= --i)
visits i = linenum - 1, linenum - 2, ... down to last inclusive, and
stops at the first line matched by the function regex.  The iteration
count (linenum - last).toNat is passed explicitly so that the recursion
is structural. -/
def find_function_scan (p : Int → Bool) : Nat → Int → Option Int
  | 0, _ => none
  | n + 1, i => if p (i - 1) then some (i - 1) else find_function_scan p n (i - 1)

/-- Translation of find_function (context.c): find the last
function-header line prior to LINENUM, updating the search cursor to
LINENUM, recording a successful downward match in last_match, and
otherwise falling back to the sticky previous match when one exists.
The regex matcher over a line and its length is abstracted as a
predicate on the line index; the returned line pointer is modelled by
the returned index. -/
def find_function (p : Int → Bool) (st : FFState) (linenum : Int) : Option Int × FFState :=
  let last := st.last_search
  let st1 : FFState := { st with last_search := linenum }
  match find_function_scan p (linenum - last).toNat linenum with
  | some i => (some i, { st1 with last_match := some i })
  | none =>
    match st1.last_match with
    | some m => (some m, st1)
    | none => (none, st1)

/-- Label rendered by print_context_function (context.c) after its
single leading space: skip leading whitespace (stopping at a newline),
take at most 40 bytes stopping at the first newline, and right-trim
trailing whitespace. -/
def contextFunctionLabel (function : List Char) : List Char :=
  let rest := function.dropWhile (fun c => c_isspace c && c != '\n')
  let seg := (rest.take 40).takeWhile (fun c => c != '\n')
  (seg.reverse.dropWhile c_isspace).reverse

/-- Translation of print_context_function (context.c): the bytes written
for FUNCTION in a context header, a single space followed by the
truncated, trimmed label. -/
def print_context_function (function : List Char) : List Char :=
  ' ' :: contextFunctionLabel function

/-- Tab expansion used by the line-output primitive: each tab advances
to the next multiple of tabsize columns (spec section 4.8). -/
def expandTabsFrom (ts : Nat) : List Char → Nat → List Char
  | [], _ => []
  | c :: cs, col =>
    if c == '\t' then
      let n := ts - col % ts
      List.replicate n ' ' ++ expandTabsFrom ts cs (col + n)
    else if c == '\n' then c :: expandTabsFrom ts cs 0
    else c :: expandTabsFrom ts cs (col + 1)

/-- Modelled from the spec: print_1_line (util.c, not among the provided
sources; spec section 4.8) writes the prefix, if any, followed by the
line's bytes up to and including its terminating newline, honoring
expand_tabs; a line lacking its final newline is followed by the
sentinel line.  Lack of the final newline is modelled as the line not
ending in a newline byte. -/
def print_1_line (env : Env) (pfx : Option String) (line : String) : String :=
  let text := if env.expand_tabs then String.mk (expandTabsFrom env.tabsize line.data 0) else line
  let base := (match pfx with | some p => p | none => "") ++ text
  if lineEndsNL line then base else base ++ "\n\\ No newline at end of file\n"

/-- Context expansion shared by pr_context_hunk and pr_unidiff_hunk
(context.c): widen each first bound by the context width clamped at
- files[0].prefix_lines (the C code uses file 0's prefix count for both
files), and each last bound clamped at the file's valid_lines - 1. -/
def expandWindow (env : Env) (first0 last0 first1 last1 : Int) : Int × Int × Int × Int :=
  let i : Int := - (env.prefix_lines0 : Int)
  let f0 := max (first0 - (env.context : Int)) i
  let f1 := max (first1 - (env.context : Int)) i
  let l0 := if last0 < env.valid_lines0 - (env.context : Int) then last0 + (env.context : Int)
            else env.valid_lines0 - 1
  let l1 := if last1 < env.valid_lines1 - (env.context : Int) then last1 + (env.context : Int)
            else env.valid_lines1 - 1
  (f0, l0, f1, l1)

/-- Lookup of the function header for a hunk: when the function regex is
present, call find_function on the expanded first0 bound and fetch the
text of the returned file-0 line. -/
def hunkFunction (env : Env) (st : FFState) (first0 : Int) : Option String × FFState :=
  match env.function_regexp with
  | none => (none, st)
  | some p =>
    let r := find_function p st first0
    (r.1.map env.lines0, r.2)

/-- The file-0 body loop of pr_context_hunk (context.c): for each line i
of the expanded window, skip past changes that apply only to lines
before i, mark the line with a bang when the covering change also
inserts, a minus when it only deletes, and a space otherwise.  The
iteration count (last0 + 1 - first0).toNat is passed explicitly so that
the recursion is structural. -/
def contextOldLines (env : Env) : Nat → List Change → Int → String
  | 0, _, _ => ""
  | n + 1, next, i =>
    let next2 := next.dropWhile (fun c => decide (c.line0 + (c.deleted : Int) ≤ i))
    let pfx := match next2 with
      | c :: _ => if c.line0 ≤ i then (if 0 < c.inserted then "!" else "-") else " "
      | [] => " "
    print_1_line env (some pfx) (env.lines0 i) ++ contextOldLines env n next2 (i + 1)

/-- The file-1 body loop of pr_context_hunk (context.c), symmetric to
contextOldLines: a bang when the covering change also deletes, a plus
when it only inserts. -/
def contextNewLines (env : Env) : Nat → List Change → Int → String
  | 0, _, _ => ""
  | n + 1, next, i =>
    let next2 := next.dropWhile (fun c => decide (c.line1 + (c.inserted : Int) ≤ i))
    let pfx := match next2 with
      | c :: _ => if c.line1 ≤ i then (if 0 < c.deleted then "!" else "+") else " "
      | [] => " "
    print_1_line env (some pfx) (env.lines1 i) ++ contextNewLines env n next2 (i + 1)

/-- Translation of pr_context_hunk (context.c): analyze the hunk,
return silently when it is UNCHANGED, widen the window, locate the
function header, then emit the stars separator, the file-0 range and
marked lines, and the file-1 range and marked lines. -/
def pr_context_hunk (env : Env) (st : FFState) (hunk : Change) (rest : List Change) :
    String × FFState :=
  let a := analyze_hunk env hunk rest
  if a.kind = Changes.UNCHANGED then ("", st)
  else
    let w := expandWindow env a.first0 a.last0 a.first1 a.last1
    let first0 := w.1
    let last0 := w.2.1
    let first1 := w.2.2.1
    let last1 := w.2.2.2
    let fr := hunkFunction env st first0
    let functionPart := match fr.1 with
      | some f => String.mk (print_context_function f.data)
      | none => ""
    let out :=
      "***************" ++ functionPart ++ "\n*** " ++
        print_context_number_range env.prefix_lines0 first0 last0 ++ " ****\n" ++
        (if a.kind.hasOld then contextOldLines env (last0 + 1 - first0).toNat (hunk :: rest) first0
         else "") ++
        "--- " ++ print_context_number_range env.prefix_lines1 first1 last1 ++ " ----\n" ++
        (if a.kind.hasNew then contextNewLines env (last1 + 1 - first1).toNat (hunk :: rest) first1
         else "")
    (out, fr.2)

/-- The marked-line runs of the unified emitter: the k-- loops of
pr_unidiff_hunk emitting n successive lines starting at line number
start, each preceded by the minus or plus mark and, when initial_tab is
on and the line is not a suppressed blank-empty line, a tab. -/
def unidiffMarkedLines (env : Env) (mark : String) (lineOf : Int → String) : Int → Nat → String
  | _, 0 => ""
  | start, n + 1 =>
    let line := lineOf start
    mark ++
      (if env.initial_tab && !(env.suppress_blank_empty && lineStartsNL line) then "\t"
       else "") ++
      print_1_line env none line ++
      unidiffMarkedLines env mark lineOf (start + 1) n

/-- The interleaving loop of pr_unidiff_hunk (context.c): while either
cursor is within its window, emit a context line from file 0 (advancing
both cursors) when no change is pending or the file-0 cursor is before
the pending change, and otherwise emit the pending change's deleted then
inserted lines, advancing the cursors by the respective counts and
moving to the following change.  Returns the emitted bytes and the final
cursor pair. -/
def unidiffLoop (env : Env) (last0 last1 : Int) : List Change → Int → Int →
    String × Int × Int
  | next, i, j =>
    if _h : i ≤ last0 ∨ j ≤ last1 then
      match next with
      | [] =>
        let line := env.lines0 i
        let pfx := if env.suppress_blank_empty && lineStartsNL line then ""
                   else (if env.initial_tab then "\t" else " ")
        let r := unidiffLoop env last0 last1 [] (i + 1) (j + 1)
        (pfx ++ print_1_line env none line ++ r.1, r.2)
      | c :: rest =>
        if i < c.line0 then
          let line := env.lines0 i
          let pfx := if env.suppress_blank_empty && lineStartsNL line then ""
                     else (if env.initial_tab then "\t" else " ")
          let r := unidiffLoop env last0 last1 (c :: rest) (i + 1) (j + 1)
          (pfx ++ print_1_line env none line ++ r.1, r.2)
        else
          let dels := unidiffMarkedLines env "-" env.lines0 i c.deleted
          let ins := unidiffMarkedLines env "+" env.lines1 j c.inserted
          let r := unidiffLoop env last0 last1 rest (i + (c.deleted : Int)) (j + (c.inserted : Int))
          (dels ++ ins ++ r.1, r.2)
    else ("", i, j)
termination_by next i j => (last0 + 1 - i).toNat + (last1 + 1 - j).toNat + next.length
decreasing_by
  all_goals simp_wf
  all_goals omega

/-- Translation of pr_unidiff_hunk (context.c): analyze the hunk, return
silently when it is UNCHANGED, widen the window, locate the function
header, emit the at-at hunk header with the two unified ranges and the
optional function label, then run the interleaving loop. -/
def pr_unidiff_hunk (env : Env) (st : FFState) (hunk : Change) (rest : List Change) :
    String × FFState :=
  let a := analyze_hunk env hunk rest
  if a.kind = Changes.UNCHANGED then ("", st)
  else
    let w := expandWindow env a.first0 a.last0 a.first1 a.last1
    let first0 := w.1
    let last0 := w.2.1
    let first1 := w.2.2.1
    let last1 := w.2.2.2
    let fr := hunkFunction env st first0
    let functionPart := match fr.1 with
      | some f => String.mk (print_context_function f.data)
      | none => ""
    let body := unidiffLoop env last0 last1 (hunk :: rest) first0 first1
    let out :=
      "@@ -" ++ print_unidiff_number_range env.prefix_lines0 first0 last0 ++
        " +" ++ print_unidiff_number_range env.prefix_lines1 first1 last1 ++
        " @@" ++ functionPart ++ "\n" ++ body.1
    (out, fr.2)

/-- Identification data of an input file used by the header: its name
and its modification time in seconds plus nanoseconds, from struct
file_data's stat field. -/
structure FileMeta where
  name : String
  sec : Int
  nsec : Nat
deriving DecidableEq

/-- Decimal rendering of the nanoseconds field of the numeric timestamp
fallback, the C conversion %.9d: for nanosecond values (below 10^9)
exactly nine digits, zero padded. -/
def padNine (n : Nat) : String :=
  String.mk ((List.range 9).map (fun k => Char.ofNat (48 + n / 10 ^ (8 - k) % 10)))

/-- Numeric timestamp fallback of print_context_label: decimal seconds,
a dot, and the nine-digit nanoseconds field. -/
def fallbackTimeString (sec : Int) (nsec : Nat) : String :=
  toString sec ++ "." ++ padNine nsec

/-- Translation of print_context_label (context.c): print a label line
for a context diff with the style's mark.  A provided label is
substituted verbatim; otherwise the name and the formatted modification
time follow, falling back to the numeric timestamp when formatting
fails.  The localtime plus nstrftime combination is abstracted as the
fmtTime collaborator (spec section 6), whose failure is the value
none. -/
def print_context_label (mark : String) (inf : FileMeta) (name : String)
    (label : Option String) (fmtTime : Int → Nat → Option String) : String :=
  match label with
  | some l => mark ++ " " ++ l ++ "\n"
  | none =>
    let buf := match fmtTime inf.sec inf.nsec with
      | some s => s
      | none => fallbackTimeString inf.sec inf.nsec
    mark ++ " " ++ name ++ "\t" ++ buf ++ "\n"

/-- Translation of print_context_header (context.c): the two file
identification lines, with marks dashes-dashes-dashes and plus-plus-plus
for unified style and stars and dashes for classic context style. -/
def print_context_header (inf0 inf1 : FileMeta) (name0 name1 : String)
    (label0 label1 : Option String) (fmtTime : Int → Nat → Option String)
    (unidiff : Bool) : String :=
  if unidiff then
    print_context_label "---" inf0 name0 label0 fmtTime ++
      print_context_label "+++" inf1 name1 label1 fmtTime
  else
    print_context_label "***" inf0 name0 label0 fmtTime ++
      print_context_label "---" inf1 name1 label1 fmtTime

/-- Well-formedness of a hunk with respect to its expanded window
[first0, last0] x [first1, last1], stated at cursor pair (i, j): every
change lies inside the window, the gap between consecutive anchor points
(the cursors, each change, and the window end) is the same measured in
file 0 and in file 1 (the equal-gap invariant), and the changes are
reached in forward order. -/
inductive HunkAligned (last0 last1 : Int) : Int → Int → List Change → Prop
  | nil : ∀ i j : Int, last0 - i = last1 - j → i ≤ last0 + 1 →
      HunkAligned last0 last1 i j []
  | cons : ∀ (i j : Int) (c : Change) (cs : List Change),
      i ≤ c.line0 →
      c.line0 - i = c.line1 - j →
      c.line0 + c.deleted ≤ last0 + 1 →
      c.line1 + c.inserted ≤ last1 + 1 →
      HunkAligned last0 last1 (c.line0 + c.deleted) (c.line1 + c.inserted) cs →
      HunkAligned last0 last1 i j (c :: cs)

/-- Example environment with no ignore options active, used to exercise
the definitions on concrete inputs. -/
def envPlain : Env :=
  { lines0 := fun _ => "a\n"
    lines1 := fun _ => "b\n"
    prefix_lines0 := 0
    prefix_lines1 := 0
    valid_lines0 := 5
    valid_lines1 := 5
    context := 1
    ignore_blank_lines := false
    ignore_regexp := none
    function_regexp := none
    initial_tab := false
    suppress_blank_empty := false
    expand_tabs := false
    tabsize := 8 }

/-- Example environment with blank-line ignoring on and every line
blank, used to exercise the ignorability analysis on concrete inputs. -/
def envBlank : Env :=
  { envPlain with
    ignore_blank_lines := true
    lines0 := fun _ => "\n"
    lines1 := fun _ => "\n" }

/-- Example change replacing one line at the start, used by concrete
instantiations. -/
def chOne : Change :=
  { line0 := 0, line1 := 0, deleted := 1, inserted := 1, ignore := false }

/-- Example change replacing one line further down with consistent gaps
after chOne, used by concrete instantiations. -/
def chTwo : Change :=
  { line0 := 2, line1 := 2, deleted := 1, inserted := 1, ignore := false }

/-- Example change whose gap after chOne differs between the two files,
used by concrete instantiations. -/
def chBad : Change :=
  { line0 := 2, line1 := 3, deleted := 1, inserted := 1, ignore := false }

/-- Example single-line replacement with the ignore flag set, analyzed
as UNCHANGED under envBlank. -/
def chIgn : Change :=
  { line0 := 0, line1 := 0, deleted := 1, inserted := 1, ignore := true }

/-- Example one-line replacement at line 1, used by concrete
instantiations of the unified interleaving loop. -/
def chMid : Change :=
  { line0 := 1, line1 := 1, deleted := 1, inserted := 1, ignore := false }

/-- C1: for every file view and internal line pair translated to real
origin-1 numbers (ta, tb), the context-style range printer outputs
exactly tb when tb ≤ ta and ta,tb otherwise; the unified-style range
printer outputs exactly tb,0 when tb < ta, tb when tb = ta, and
ta,(tb - ta + 1) when tb > ta. -/
theorem spec_C1 (pl : Nat) (a b : Int) :
    ((translate_range pl a b).2 ≤ (translate_range pl a b).1 →
      print_context_number_range pl a b = toString (translate_range pl a b).2) ∧
    ((translate_range pl a b).1 < (translate_range pl a b).2 →
      print_context_number_range pl a b =
        toString (translate_range pl a b).1 ++ "," ++ toString (translate_range pl a b).2) ∧
    ((translate_range pl a b).2 < (translate_range pl a b).1 →
      print_unidiff_number_range pl a b = toString (translate_range pl a b).2 ++ ",0") ∧
    ((translate_range pl a b).2 = (translate_range pl a b).1 →
      print_unidiff_number_range pl a b = toString (translate_range pl a b).2) ∧
    ((translate_range pl a b).1 < (translate_range pl a b).2 →
      print_unidiff_number_range pl a b =
        toString (translate_range pl a b).1 ++ "," ++
          toString ((translate_range pl a b).2 - (translate_range pl a b).1 + 1)) := by
  refine ⟨fun h => ?_, fun h => ?_, fun h => ?_, fun h => ?_, fun h => ?_⟩
  · simp [print_context_number_range, h]
  · have h2 : ¬ (translate_range pl a b).2 ≤ (translate_range pl a b).1 := by omega
    simp [print_context_number_range, h2]
  · have h2 : (translate_range pl a b).2 ≤ (translate_range pl a b).1 := by omega
    simp [print_unidiff_number_range, h2, h]
  · have h2 : (translate_range pl a b).2 ≤ (translate_range pl a b).1 := by omega
    have h3 : ¬ (translate_range pl a b).2 < (translate_range pl a b).1 := by omega
    simp [print_unidiff_number_range, h2, h3]
  · have h2 : ¬ (translate_range pl a b).2 ≤ (translate_range pl a b).1 := by omega
    simp [print_unidiff_number_range, h2]

/-- Witness for spec_C1: concrete instantiations covering the empty
range, the equal endpoints, and the increasing range. -/
theorem spec_C1_witness :
    ((translate_range 0 1 0).2 ≤ (translate_range 0 1 0).1 ∧
      print_context_number_range 0 1 0 = toString (translate_range 0 1 0).2 ∧
      print_unidiff_number_range 0 1 0 = toString (translate_range 0 1 0).2 ++ ",0") ∧
    (print_unidiff_number_range 0 1 1 = toString (translate_range 0 1 1).2) ∧
    (print_context_number_range 0 0 1 =
      toString (translate_range 0 0 1).1 ++ "," ++ toString (translate_range 0 0 1).2) ∧
    (print_unidiff_number_range 0 0 1 =
      toString (translate_range 0 0 1).1 ++ "," ++
        toString ((translate_range 0 0 1).2 - (translate_range 0 0 1).1 + 1)) :=
  ⟨⟨by decide, (spec_C1 0 1 0).1 (by decide), (spec_C1 0 1 0).2.2.1 (by decide)⟩,
    (spec_C1 0 1 1).2.2.2.1 (by decide),
    (spec_C1 0 0 1).2.1 (by decide),
    (spec_C1 0 0 1).2.2.2.2 (by decide)⟩

/-- Helper: on a chain whose adjacent gaps are consistent between the
two files, find_hunk never aborts and computes exactly the spec-side
maximal-run walk hunkRunLast. -/
theorem find_hunk_eq_of_chain (ctx : Nat) :
    ∀ (start : Change) (rest : List Change), List.Chain gapsConsistent start rest →
      find_hunk ctx start rest = some (hunkRunLast ctx start rest) := by
  intro start rest
  induction rest generalizing start with
  | nil => intro _; rfl
  | cons next rest ih =>
    intro h
    rcases h with _ | ⟨hg, hchain⟩
    have hg2 : gap0 start next = gap1 start next := hg
    simp only [find_hunk, hunkRunLast]
    rw [if_neg (not_not_intro hg2)]
    by_cases hlt : gap0 start next < hunkThreshold ctx next
    · rw [if_pos hlt, if_pos hlt]
      exact ih next hchain
    · rw [if_neg hlt, if_neg hlt]

/-- C2: on a consistent script, find_hunk returns the last change of the
maximal run built by walking forward and including the successor exactly
when the file-0 gap is strictly below the threshold (context_lines for
an ignorable successor, twice context_lines plus one otherwise); the
walk stops at the end of the chain, and a single-change chain returns
the starting change itself. -/
theorem spec_C2 (ctx : Nat) (start : Change) (rest : List Change)
    (h : List.Chain gapsConsistent start rest) :
    find_hunk ctx start rest = some (hunkRunLast ctx start rest) ∧
    find_hunk ctx start [] = some start :=
  ⟨find_hunk_eq_of_chain ctx start rest h, rfl⟩

/-- Witness for spec_C2: a two-change chain with consistent gaps. -/
theorem spec_C2_witness :
    List.Chain gapsConsistent chOne [chTwo] ∧
    (find_hunk 1 chOne [chTwo] = some (hunkRunLast 1 chOne [chTwo]) ∧
      find_hunk 1 chOne [] = some chOne) :=
  ⟨List.Chain.cons (by decide) List.Chain.nil,
    spec_C2 1 chOne [chTwo] (List.Chain.cons (by decide) List.Chain.nil)⟩

/-- Helper: find_hunk aborts as soon as it examines an adjacent pair
whose file-0 gap differs from its file-1 gap. -/
theorem find_hunk_none_of_examined (ctx : Nat) :
    ∀ (start : Change) (rest : List Change),
      (∃ p ∈ examinedPairs ctx start rest, ¬ gapsConsistent p.1 p.2) →
      find_hunk ctx start rest = none := by
  intro start rest
  induction rest generalizing start with
  | nil =>
    intro h
    rcases h with ⟨p, hp, _⟩
    simp [examinedPairs] at hp
  | cons next rest ih =>
    intro h
    by_cases hg : gapsConsistent start next
    · have hg2 : gap0 start next = gap1 start next := hg
      simp only [find_hunk]
      rw [if_neg (not_not_intro hg2)]
      by_cases hlt : gap0 start next < hunkThreshold ctx next
      · rw [if_pos hlt]
        apply ih next
        rcases h with ⟨p, hp, hbad⟩
        refine ⟨p, ?_, hbad⟩
        simp only [examinedPairs, List.mem_cons] at hp
        rcases hp with hp | hp
        · exact absurd (hp ▸ hg) hbad
        · rwa [if_pos ⟨hg2, hlt⟩] at hp
      · exfalso
        rcases h with ⟨p, hp, hbad⟩
        simp only [examinedPairs, List.mem_cons] at hp
        rcases hp with hp | hp
        · exact hbad (hp ▸ hg)
        · rw [if_neg (by tauto)] at hp
          simp at hp
    · have hg2 : gap0 start next ≠ gap1 start next := hg
      simp only [find_hunk]
      rw [if_pos hg2]

/-- C3: on a script whose adjacent pairs all have equal gaps in the two
files, the abort branch inside find_hunk is unreachable; conversely,
find_hunk aborts whenever it examines an adjacent pair whose file-0 gap
differs from its file-1 gap. -/
theorem spec_C3 (ctx : Nat) (start : Change) (rest : List Change) :
    (List.Chain gapsConsistent start rest → (find_hunk ctx start rest).isSome = true) ∧
    ((∃ p ∈ examinedPairs ctx start rest, ¬ gapsConsistent p.1 p.2) →
      find_hunk ctx start rest = none) := by
  constructor
  · intro h
    rw [find_hunk_eq_of_chain ctx start rest h]
    rfl
  · exact find_hunk_none_of_examined ctx start rest

/-- Witness for spec_C3: a consistent chain where find_hunk returns, and
an inconsistent examined pair where it aborts. -/
theorem spec_C3_witness :
    (find_hunk 1 chOne [chTwo]).isSome = true ∧ find_hunk 1 chOne [chBad] = none :=
  ⟨(spec_C3 1 chOne [chTwo]).1 (List.Chain.cons (by decide) List.Chain.nil),
    (spec_C3 1 chOne [chBad]).2 ⟨(chOne, chBad), by decide, by decide⟩⟩

/-- Helper: mark_ignorable rewrites each change's ignore flag from the
single-change analysis, leaving all other fields and the order of the
chain unchanged. -/
theorem mark_ignorable_eq_map (env : Env) :
    ∀ script : List Change,
      mark_ignorable env script =
        script.map (fun c =>
          { c with ignore := decide ((analyze_hunk env c []).kind = Changes.UNCHANGED) }) := by
  intro script
  induction script with
  | nil => rfl
  | cons c rest ih => simp [mark_ignorable, ih]

/-- C5: before any hunk is emitted the script is pre-marked: with
ignore_blank_lines off and no ignore regex every ignore flag is cleared;
otherwise each change is analyzed in isolation (detached from the chain)
and its ignore flag becomes true exactly when that single-change
analysis yields UNCHANGED. -/
theorem spec_C5 (env : Env) (script : List Change) :
    ((env.ignore_blank_lines || env.ignore_regexp.isSome) = false →
      print_context_script_mark env script =
        script.map (fun e => { e with ignore := false })) ∧
    ((env.ignore_blank_lines || env.ignore_regexp.isSome) = true →
      print_context_script_mark env script =
        script.map (fun c =>
          { c with ignore := decide ((analyze_hunk env c []).kind = Changes.UNCHANGED) })) := by
  constructor
  · intro h
    simp [print_context_script_mark, h]
  · intro h
    simp [print_context_script_mark, h, mark_ignorable_eq_map]

/-- Witness for spec_C5: the clearing branch under envPlain and the
marking branch under envBlank on a two-change script. -/
theorem spec_C5_witness :
    print_context_script_mark envPlain [chIgn, chTwo] =
      [chIgn, chTwo].map (fun e => { e with ignore := false }) ∧
    print_context_script_mark envBlank [chIgn, chTwo] =
      [chIgn, chTwo].map (fun c =>
        { c with ignore := decide ((analyze_hunk envBlank c []).kind = Changes.UNCHANGED) }) :=
  ⟨(spec_C5 envPlain [chIgn, chTwo]).1 (by decide),
    (spec_C5 envBlank [chIgn, chTwo]).2 (by decide)⟩

/-- C6: for every hunk whose analysis yields UNCHANGED, both the context
emitter and the unified emitter return immediately, writing nothing to
the output and leaving the function-finder state untouched. -/
theorem spec_C6 (env : Env) (st : FFState) (hunk : Change) (rest : List Change)
    (h : (analyze_hunk env hunk rest).kind = Changes.UNCHANGED) :
    pr_context_hunk env st hunk rest = ("", st) ∧
    pr_unidiff_hunk env st hunk rest = ("", st) := by
  constructor
  · simp [pr_context_hunk, h]
  · simp [pr_unidiff_hunk, h]

/-- Witness for spec_C6: a single ignorable change under envBlank is
analyzed as UNCHANGED and both emitters write nothing. -/
theorem spec_C6_witness :
    pr_context_hunk envBlank { last_search := 0, last_match := none } chIgn [] =
      ("", { last_search := 0, last_match := none }) ∧
    pr_unidiff_hunk envBlank { last_search := 0, last_match := none } chIgn [] =
      ("", { last_search := 0, last_match := none }) :=
  spec_C6 envBlank { last_search := 0, last_match := none } chIgn [] (by decide)

/-- Helper: the ignorability of a change's line spans does not depend on
its ignore flag. -/
theorem changeAllIgnorable_set_ignore (env : Env) (c : Change) (b : Bool) :
    changeAllIgnorable env { c with ignore := b } = changeAllIgnorable env c :=
  rfl

/-- Helper: the mark computed for a detached single change, expressed as
a boolean combination of its current ignore flag, the ignorability of
its line spans, and the degenerate empty-change case. -/
theorem analyze_single_mark (env : Env) (c : Change) :
    decide ((analyze_hunk env c []).kind = Changes.UNCHANGED) =
      ((c.ignore && changeAllIgnorable env c) ||
        (decide (c.deleted = 0) && decide (c.inserted = 0))) := by
  obtain ⟨l0, l1, d, ins, ig⟩ := c
  cases hg : changeAllIgnorable env ⟨l0, l1, d, ins, ig⟩ <;> cases ig <;>
    rcases Nat.eq_zero_or_pos d with hd | hd <;>
    rcases Nat.eq_zero_or_pos ins with hins | hins <;>
      simp_all [analyze_hunk, Nat.pos_iff_ne_zero]

/-- Helper: re-marking an already marked single change computes the same
mark. -/
theorem mark_single_idem (env : Env) (c : Change) :
    decide ((analyze_hunk env
        { c with ignore := decide ((analyze_hunk env c []).kind = Changes.UNCHANGED) }
        []).kind = Changes.UNCHANGED) =
      decide ((analyze_hunk env c []).kind = Changes.UNCHANGED) := by
  obtain ⟨l0, l1, d, ins, ig⟩ := c
  rw [analyze_single_mark, analyze_single_mark]
  simp only [changeAllIgnorable]
  generalize (spanAllIgnorable env env.lines0 l0 d && spanAllIgnorable env env.lines1 l1 ins) = s
  generalize decide (d = 0) = zd
  generalize decide (ins = 0) = zi
  cases ig <;> cases s <;> cases zd <;> cases zi <;> rfl

/-- C8: running the ignore-marking phase twice in succession leaves
every change with the same ignore flag as running it once. -/
theorem spec_C8 (env : Env) (script : List Change) :
    print_context_script_mark env (print_context_script_mark env script) =
      print_context_script_mark env script := by
  by_cases h : (env.ignore_blank_lines || env.ignore_regexp.isSome) = true
  · simp only [print_context_script_mark, h, if_true, if_pos]
    rw [mark_ignorable_eq_map, mark_ignorable_eq_map, List.map_map]
    refine List.map_congr_left fun c _ => ?_
    simp only [Function.comp_apply]
    rw [mark_single_idem]
  · rw [Bool.not_eq_true] at h
    simp [print_context_script_mark, h]

/-- C9: a label override is substituted verbatim for the name-tab-time
portion after the style's mark; otherwise the modification time is
formatted by the time formatter, and on failure the header falls back to
the decimal seconds.nanoseconds form with the nanoseconds field exactly
nine digits wide. -/
theorem spec_C9 (mark : String) (inf : FileMeta) (name : String)
    (fmtTime : Int → Nat → Option String) :
    (∀ l, print_context_label mark inf name (some l) fmtTime = mark ++ " " ++ l ++ "\n") ∧
    (∀ s, fmtTime inf.sec inf.nsec = some s →
      print_context_label mark inf name none fmtTime =
        mark ++ " " ++ name ++ "\t" ++ s ++ "\n") ∧
    (fmtTime inf.sec inf.nsec = none →
      print_context_label mark inf name none fmtTime =
        mark ++ " " ++ name ++ "\t" ++ (toString inf.sec ++ "." ++ padNine inf.nsec) ++ "\n" ∧
      (padNine inf.nsec).length = 9) := by
  refine ⟨fun l => rfl, fun s hs => ?_, fun hn => ⟨?_, ?_⟩⟩
  · simp [print_context_label, hs]
  · simp [print_context_label, hn, fallbackTimeString]
  · simp [padNine, String.length]

/-- Witness for spec_C9: the verbatim label branch and the numeric
fallback branch at a concrete file. -/
theorem spec_C9_witness :
    print_context_label "***" { name := "a", sec := 3, nsec := 5 } "a" (some "LBL")
        (fun _ _ => none) = "***" ++ " " ++ "LBL" ++ "\n" ∧
    (print_context_label "***" { name := "a", sec := 3, nsec := 5 } "a" none
        (fun _ _ => none) =
      "***" ++ " " ++ "a" ++ "\t" ++ (toString (3 : Int) ++ "." ++ padNine 5) ++ "\n" ∧
      (padNine 5).length = 9) :=
  ⟨(spec_C9 "***" { name := "a", sec := 3, nsec := 5 } "a" (fun _ _ => none)).1 "LBL",
    (spec_C9 "***" { name := "a", sec := 3, nsec := 5 } "a" (fun _ _ => none)).2.2 rfl⟩

/-- C10: find_function always sets the last-search cursor to the given
line number; the last-match cursor changes only when the downward scan
finds a match, and is untouched on the sticky-fallback and not-found
outcomes; hence an immediately repeated call with the same line number
returns the same result and the same state, its downward scan running
zero iterations. -/
theorem spec_C10 (p : Int → Bool) (st : FFState) (n : Int) :
    ((find_function p st n).2.last_search = n) ∧
    (find_function_scan p (n - st.last_search).toNat n = none →
      (find_function p st n).2.last_match = st.last_match) ∧
    (find_function p ((find_function p st n).2) n =
      ((find_function p st n).1, (find_function p st n).2)) ∧
    ((n - (find_function p st n).2.last_search).toNat = 0) := by
  obtain ⟨ls, lm⟩ := st
  have hzero : (n - n).toNat = 0 := by omega
  refine ⟨?_, ?_, ?_, ?_⟩
  · simp only [find_function]
    cases hscan : find_function_scan p (n - ls).toNat n <;> cases lm <;> simp [hscan]
  · intro hnone
    simp only [find_function] at hnone ⊢
    cases lm <;> simp [hnone]
  · simp only [find_function]
    cases hscan : find_function_scan p (n - ls).toNat n <;> cases lm <;>
      simp [hscan, hzero, find_function_scan]
  · simp only [find_function]
    cases hscan : find_function_scan p (n - ls).toNat n <;> cases lm <;> simp [hscan, hzero]

/-- Witness for spec_C10: a matcher that never fires, from a fresh
state. -/
theorem spec_C10_witness :
    ((find_function (fun _ => false) { last_search := 0, last_match := none } 3).2.last_search
        = 3) ∧
    ((find_function (fun _ => false) { last_search := 0, last_match := none } 3).2.last_match
        = ({ last_search := 0, last_match := none } : FFState).last_match) :=
  ⟨(spec_C10 (fun _ => false) { last_search := 0, last_match := none } 3).1,
    (spec_C10 (fun _ => false) { last_search := 0, last_match := none } 3).2.1 (by decide)⟩

/-- Helper: the head of a dropWhile result, when present, fails the
dropped predicate. -/
theorem head?_dropWhile_false (p : Char → Bool) :
    ∀ (l : List Char) (c : Char), (l.dropWhile p).head? = some c → p c = false := by
  intro l
  induction l with
  | nil =>
    intro c h
    simp [List.dropWhile] at h
  | cons a l ih =>
    intro c h
    rw [List.dropWhile_cons] at h
    by_cases hpa : p a = true
    · rw [if_pos hpa] at h
      exact ih c h
    · rw [if_neg hpa] at h
      simp only [List.head?_cons, Option.some.injEq] at h
      rw [← h]
      exact Bool.not_eq_true _ |>.mp hpa

/-- C7: the function label rendered after the single leading space is at
most 40 bytes, contains no newline byte, has no trailing whitespace, and
is obtained by skipping leading whitespace, taking at most 40 bytes up
to the first newline, and right-trimming trailing whitespace. -/
theorem spec_C7 (function : List Char) (_h : '\n' ∈ function) :
    (contextFunctionLabel function).length ≤ 40 ∧
    '\n' ∉ contextFunctionLabel function ∧
    (∀ c, (contextFunctionLabel function).getLast? = some c → c_isspace c = false) ∧
    print_context_function function = ' ' :: contextFunctionLabel function := by
  refine ⟨?_, ?_, ?_, rfl⟩
  · simp only [contextFunctionLabel]
    rw [List.length_reverse]
    refine le_trans (List.dropWhile_sublist _).length_le ?_
    rw [List.length_reverse]
    refine le_trans (List.takeWhile_sublist _).length_le ?_
    exact List.length_take_le _ _
  · intro hmem
    simp only [contextFunctionLabel] at hmem
    rw [List.mem_reverse] at hmem
    have hmem2 := (List.dropWhile_sublist c_isspace).subset hmem
    rw [List.mem_reverse] at hmem2
    have hp := List.mem_takeWhile_imp hmem2
    simp at hp
  · intro c hc
    simp only [contextFunctionLabel] at hc
    rw [List.getLast?_reverse] at hc
    exact head?_dropWhile_false c_isspace _ c hc

/-- Witness for spec_C7: a concrete function-header line with leading
and trailing whitespace. -/
theorem spec_C7_witness :
    '\n' ∈ ("  int main (void)   \n".data) ∧
    ((contextFunctionLabel ("  int main (void)   \n".data)).length ≤ 40 ∧
      '\n' ∉ contextFunctionLabel ("  int main (void)   \n".data) ∧
      (∀ c, (contextFunctionLabel ("  int main (void)   \n".data)).getLast? = some c →
        c_isspace c = false) ∧
      print_context_function ("  int main (void)   \n".data) =
        ' ' :: contextFunctionLabel ("  int main (void)   \n".data)) :=
  ⟨by decide, spec_C7 ("  int main (void)   \n".data) (by decide)⟩

/-- Helper: once the change chain is exhausted, the unified interleaving
loop steps both cursors in lockstep and stops exactly at last0 + 1 and
last1 + 1 when the remaining distances agree. -/
theorem unidiffLoop_nil (env : Env) (last0 last1 : Int) :
    ∀ (n : Nat) (i j : Int), (last0 + 1 - i).toNat = n → last0 - i = last1 - j →
      i ≤ last0 + 1 →
      (unidiffLoop env last0 last1 [] i j).2 = (last0 + 1, last1 + 1) := by
  intro n
  induction n with
  | zero =>
    intro i j hn hd hi
    rw [unidiffLoop]
    rw [dif_neg (by omega)]
    have hi2 : i = last0 + 1 := by omega
    have hj2 : j = last1 + 1 := by omega
    rw [hi2, hj2]
  | succ n ih =>
    intro i j hn hd hi
    rw [unidiffLoop]
    rw [dif_pos (by omega : i ≤ last0 ∨ j ≤ last1)]
    dsimp only
    exact ih (i + 1) (j + 1) (by omega) (by omega) (by omega)

/-- Helper: walking the context lines up to the next pending change and
consuming it lands the loop on the rest of the chain at the change's end
points; if the whole hunk is aligned the loop therefore ends at
last0 + 1 and last1 + 1. -/
theorem unidiffLoop_walk (env : Env) (last0 last1 : Int) (c : Change) (cs : List Change)
    (hd0 : c.line0 + c.deleted ≤ last0 + 1) (hd1 : c.line1 + c.inserted ≤ last1 + 1)
    (hrec : (unidiffLoop env last0 last1 cs (c.line0 + c.deleted)
        (c.line1 + c.inserted)).2 = (last0 + 1, last1 + 1)) :
    ∀ (n : Nat) (i j : Int), (c.line0 - i).toNat = n → i ≤ c.line0 →
      c.line0 - i = c.line1 - j →
      (unidiffLoop env last0 last1 (c :: cs) i j).2 = (last0 + 1, last1 + 1) := by
  intro n
  induction n with
  | zero =>
    intro i j hn hi hg
    have hi2 : i = c.line0 := by omega
    have hj2 : j = c.line1 := by omega
    subst hi2
    subst hj2
    rw [unidiffLoop]
    by_cases hcond : c.line0 ≤ last0 ∨ c.line1 ≤ last1
    · rw [dif_pos hcond]
      dsimp only
      rw [if_neg (lt_irrefl c.line0)]
      dsimp only
      exact hrec
    · rw [dif_neg hcond]
      have h0 : c.line0 = last0 + 1 := by omega
      have h1 : c.line1 = last1 + 1 := by omega
      rw [h0, h1]
  | succ n ih =>
    intro i j hn hi hg
    rw [unidiffLoop]
    rw [dif_pos (by left; omega : i ≤ last0 ∨ j ≤ last1)]
    dsimp only
    rw [if_pos (by omega : i < c.line0)]
    dsimp only
    exact ih (i + 1) (j + 1) (by omega) (by omega) (by omega)

/-- C4: for every hunk aligned with its expanded window (all changes lie
inside the window and consecutive gaps agree between the two files), the
interleaving loop of the unified emitter terminates with cursor i equal
to last0 + 1 and cursor j equal to last1 + 1. -/
theorem spec_C4 (env : Env) (last0 last1 first0 first1 : Int) (cs : List Change)
    (h : HunkAligned last0 last1 first0 first1 cs) :
    (unidiffLoop env last0 last1 cs first0 first1).2 = (last0 + 1, last1 + 1) := by
  induction h with
  | nil i j hd hi => exact unidiffLoop_nil env last0 last1 _ i j rfl hd hi
  | cons i j c cs h1 h2 h3 h4 _h5 ih =>
    exact unidiffLoop_walk env last0 last1 c cs h3 h4 ih _ i j rfl h1 h2

/-- Witness for spec_C4: a window 0..2 in both files around a one-line
replacement at line 1. -/
theorem spec_C4_witness :
    HunkAligned 2 2 0 0 [chMid] ∧
    (unidiffLoop envPlain 2 2 [chMid] 0 0).2 = (2 + 1, 2 + 1) := by
  have hAl : HunkAligned 2 2 0 0 [chMid] := by
    refine HunkAligned.cons 0 0 chMid [] (by decide) (by decide) (by decide) (by decide) ?_
    exact HunkAligned.nil _ _ (by decide) (by decide)
  exact ⟨hAl, spec_C4 envPlain 2 2 0 0 _ hAl⟩

end Diffutils
